import Mathlib

/-!
Verification of the BLAKE2b/BLAKE2bp hashing core (`blake2b_simd`).

The dispatch layer and the SIMD parameter carriers (`src/guts.rs`) are embedded
directly from the source.  The compression kernels, the streaming `State`, the
`Params` builders and the parallel driver live in files of the repository that
are not available here; those are modelled from the specification, as marked on
each definition.

Machine words are embedded as `Nat` with explicit reduction modulo `2 ^ 64`
(respectively `2 ^ 128` for the byte counter) wherever the source performs
wrapping machine arithmetic.
-/

namespace Blake2

/-- `2 ^ 64`, the modulus of the 64-bit words used throughout. -/
def U64 : Nat := 2 ^ 64

/-- All-ones 64-bit word, the "flag set" value (`!0u64`). -/
def ALLONES : Nat := U64 - 1

/-- Wrapping 64-bit addition. -/
def wAdd (a b : Nat) : Nat := (a + b) % U64

/-- 64-bit right rotation by `n` bits (for words `< 2 ^ 64`). -/
def rotr64 (n x : Nat) : Nat := (x >>> n) ||| ((x % 2 ^ n) <<< (64 - n))

/-- The operations on a "word" type: scalar `u64`s for the portable kernel,
lane bundles for the transposed kernels.  The compression function below is
written once over this interface; "every scalar becomes a SIMD lane". -/
structure WordOps (W : Type) where
  zero : W
  add : W → W → W
  xor : W → W → W
  rotr : Nat → W → W

/-- Scalar `u64` operations (wrapping add, xor, right rotation). -/
def scalarOps : WordOps Nat where
  zero := 0
  add := wAdd
  xor := Nat.xor
  rotr := rotr64

/-- Modelled from the spec: the eight BLAKE2b initialization words (IV, same as
SHA-512's), §3 of the spec; `portable.rs` is not under `src/`. -/
def IV : List Nat :=
  [0x6a09e667f3bcc908, 0xbb67ae8584caa73b, 0x3c6ef372fe94f82b, 0xa54ff53a5f1d36f1,
   0x510e527fade682d1, 0x9b05688c2b3e6c1f, 0x1f83d9abfb41bd6b, 0x5be0cd19137e2179]

/-- Modelled from the spec: the ten BLAKE2b message-schedule permutations
(`SIGMA`), RFC 7693 §2.7 as referenced by spec §4.1. -/
def SIGMA : List (List Nat) :=
  [[0, 1, 2, 3, 4, 5, 6, 7, 8, 9, 10, 11, 12, 13, 14, 15],
   [14, 10, 4, 8, 9, 15, 13, 6, 1, 12, 0, 2, 11, 7, 5, 3],
   [11, 8, 12, 0, 5, 2, 15, 13, 10, 14, 3, 6, 7, 1, 9, 4],
   [7, 9, 3, 1, 13, 12, 11, 14, 2, 6, 5, 10, 4, 0, 15, 8],
   [9, 0, 5, 7, 2, 4, 10, 15, 14, 1, 11, 12, 6, 8, 3, 13],
   [2, 12, 6, 10, 0, 11, 8, 3, 4, 13, 7, 5, 15, 14, 1, 9],
   [12, 5, 1, 15, 14, 13, 4, 10, 0, 7, 6, 3, 9, 2, 8, 11],
   [13, 11, 7, 14, 12, 1, 3, 9, 5, 0, 15, 4, 8, 6, 2, 10],
   [6, 15, 14, 9, 11, 3, 0, 8, 12, 2, 13, 7, 1, 4, 10, 5],
   [10, 2, 8, 4, 7, 6, 1, 5, 15, 11, 9, 14, 3, 12, 13, 0]]

/-- The twelve per-round permutations: `SIGMA[r mod 10]` for `r = 0..11`. -/
def ROUNDS : List (List Nat) := SIGMA ++ SIGMA.take 2

/-- The BLAKE2b G mixing function over an abstract word type, updating the four
entries `a b c d` of the work vector `v` using message words `x y`.  Rotations
are by 32, 24, 16 and 63 (spec §4.1, RFC 7693 §3.1). -/
def gG {W : Type} (o : WordOps W) (v : List W) (a b c d : Nat) (x y : W) : List W :=
  let va := o.add (o.add (v.getD a o.zero) (v.getD b o.zero)) x
  let vd := o.rotr 32 (o.xor (v.getD d o.zero) va)
  let vc := o.add (v.getD c o.zero) vd
  let vb := o.rotr 24 (o.xor (v.getD b o.zero) vc)
  let va' := o.add (o.add va vb) y
  let vd' := o.rotr 16 (o.xor vd va')
  let vc' := o.add vc vd'
  let vb' := o.rotr 63 (o.xor vb vc')
  (((v.set a va').set b vb').set c vc').set d vd'

/-- One round of BLAKE2b: G applied to the four columns and then the four
diagonals, with the round's permutation `s` indexing the message words `m`. -/
def ground {W : Type} (o : WordOps W) (m : List W) (s : List Nat) (v : List W) : List W :=
  let mi := fun i => m.getD (s.getD i 0) o.zero
  let v := gG o v 0 4 8 12 (mi 0) (mi 1)
  let v := gG o v 1 5 9 13 (mi 2) (mi 3)
  let v := gG o v 2 6 10 14 (mi 4) (mi 5)
  let v := gG o v 3 7 11 15 (mi 6) (mi 7)
  let v := gG o v 0 5 10 15 (mi 8) (mi 9)
  let v := gG o v 1 6 11 12 (mi 10) (mi 11)
  let v := gG o v 2 7 8 13 (mi 12) (mi 13)
  let v := gG o v 3 4 9 14 (mi 14) (mi 15)
  v

/-- Modelled from the spec: the BLAKE2b compression function of RFC 7693 §3.2
(spec §4.1), over an abstract word type.  `v = h ∥ IV`; `t_lo`, `t_hi`,
`last_block_flag`, `last_node_flag` are XORed into `v[12..16]`; 12 rounds; then
`h[i] ^= v[i] ^ v[i+8]`. -/
def gcompress {W : Type} (o : WordOps W) (iv : List W) (h : List W) (m : List W)
    (tlo thi f0 f1 : W) : List W :=
  let v := h ++ iv
  let v := v.set 12 (o.xor (v.getD 12 o.zero) tlo)
  let v := v.set 13 (o.xor (v.getD 13 o.zero) thi)
  let v := v.set 14 (o.xor (v.getD 14 o.zero) f0)
  let v := v.set 15 (o.xor (v.getD 15 o.zero) f1)
  let v := ROUNDS.foldl (fun w s => ground o m s w) v
  (List.range 8).map (fun i => o.xor (h.getD i o.zero) (o.xor (v.getD i o.zero) (v.getD (i + 8) o.zero)))

/-- Load the little-endian 64-bit word at word index `i` of a byte list. -/
def load64 (block : List Nat) (i : Nat) : Nat :=
  block.getD (8 * i) 0 +
  block.getD (8 * i + 1) 0 * 2 ^ 8 +
  block.getD (8 * i + 2) 0 * 2 ^ 16 +
  block.getD (8 * i + 3) 0 * 2 ^ 24 +
  block.getD (8 * i + 4) 0 * 2 ^ 32 +
  block.getD (8 * i + 5) 0 * 2 ^ 40 +
  block.getD (8 * i + 6) 0 * 2 ^ 48 +
  block.getD (8 * i + 7) 0 * 2 ^ 56

/-- Decode a 128-byte block as 16 little-endian words (spec §3, "Block"). -/
def loadBlock (block : List Nat) : List Nat := (List.range 16).map (load64 block)

/-- The `u64x2` parameter carrier of `src/guts.rs:249`: a two-element `u64`
array, embedded as its list of lane words. -/
abbrev u64x2 : Type := List Nat

/-- The `u64x4` parameter carrier of `src/guts.rs:267`: a four-element `u64`
array, embedded as its list of lane words. -/
abbrev u64x4 : Type := List Nat

/-- Pointwise combination of two lane bundles (padding missing lanes with 0). -/
def lzip (f : Nat → Nat → Nat) (a b : List Nat) : List Nat :=
  (List.range (max a.length b.length)).map (fun i => f (a.getD i 0) (b.getD i 0))

/-- Lane-wise word operations on `n`-lane bundles: "every scalar becomes a SIMD
lane.  Lanes are independent: no cross-lane mixing" (spec §4.1). -/
def laneOps (n : Nat) : WordOps (List Nat) where
  zero := List.replicate n 0
  add := lzip wAdd
  xor := lzip Nat.xor
  rotr := fun r => List.map (rotr64 r)

/-- The IV broadcast into every lane. -/
def ivLanes (n : Nat) : List (List Nat) := IV.map (List.replicate n)

/-- The two per-lane message blocks decoded into 16 two-lane word bundles. -/
def tload2 (m0 m1 : List Nat) : List u64x2 :=
  (List.range 16).map (fun i => [load64 m0 i, load64 m1 i])

/-- The four per-lane message blocks decoded into 16 four-lane word bundles. -/
def tload4 (m0 m1 m2 m3 : List Nat) : List u64x4 :=
  (List.range 16).map (fun i => [load64 m0 i, load64 m1 i, load64 m2 i, load64 m3 i])

/-- Extract lane `j` of a transposed state. -/
def listLane (j : Nat) (t : List (List Nat)) : List Nat :=
  t.map (fun w => w.getD j 0)

namespace portable

/-- Modelled from the spec: `portable::compress` (spec §4.1; `portable.rs` is
not under `src/`).  Takes the 8 state words, a 128-byte block, the 128-bit
count and the two finalization flag words, and returns the new state words. -/
def compress (h : List Nat) (msg : List Nat) (count lastblock lastnode : Nat) : List Nat :=
  gcompress Blake2.scalarOps IV h (loadBlock msg) (count % U64) ((count >>> 64) % U64)
    lastblock lastnode

/-- Modelled from the spec: `portable::transpose2` (spec §4.1): an 8-element
vector of `u64x2` where lane `j` holds word `i` of state `j`. -/
def transpose2 (w0 w1 : List Nat) : List u64x2 :=
  (List.range 8).map (fun i => [w0.getD i 0, w1.getD i 0])

/-- Modelled from the spec: `portable::untranspose2` (spec §4.1), the exact
inverse of `transpose2`; the two output state vectors as a pair. -/
def untranspose2 (t : List u64x2) : List Nat × List Nat :=
  (listLane 0 t, listLane 1 t)

/-- Modelled from the spec: `portable::transpose4` (spec §4.1). -/
def transpose4 (w0 w1 w2 w3 : List Nat) : List u64x4 :=
  (List.range 8).map (fun i => [w0.getD i 0, w1.getD i 0, w2.getD i 0, w3.getD i 0])

/-- Modelled from the spec: `portable::untranspose4` (spec §4.1), the exact
inverse of `transpose4`; the four output state vectors as a tuple. -/
def untranspose4 (t : List u64x4) : List Nat × List Nat × List Nat × List Nat :=
  (listLane 0 t, listLane 1 t, listLane 2 t, listLane 3 t)

/-- Modelled from the spec: `portable::compress2_transposed` (spec §4.1):
"identical math to `compress`, but every scalar becomes a SIMD lane; per-lane
`t_lo`, `t_hi`, `last_block`, `last_node` are supplied as `u64x2`". -/
def compress2_transposed (tsw : List u64x2) (msg0 msg1 : List Nat)
    (countLow countHigh lastblock lastnode : u64x2) : List u64x2 :=
  gcompress (laneOps 2) (ivLanes 2) tsw (tload2 msg0 msg1)
    countLow countHigh lastblock lastnode

/-- Modelled from the spec: `portable::compress4_transposed` (spec §4.1), the
four-lane analogue of `compress2_transposed`. -/
def compress4_transposed (tsw : List u64x4) (msg0 msg1 msg2 msg3 : List Nat)
    (countLow countHigh lastblock lastnode : u64x4) : List u64x4 :=
  gcompress (laneOps 4) (ivLanes 4) tsw (tload4 msg0 msg1 msg2 msg3)
    countLow countHigh lastblock lastnode

end portable

namespace sse41

/-- Modelled from the spec: `sse41::compress2_transposed` (`sse41.rs` is not
under `src/`); spec §4.2 requires its output to be "bit-identical to the
portable equivalents for all inputs", so it is modelled as computing the same
two-lane transposed compression. -/
def compress2_transposed : List u64x2 → List Nat → List Nat → u64x2 → u64x2 → u64x2 → u64x2 → List u64x2 :=
  portable.compress2_transposed

/-- Modelled from the spec: `sse41::compress4_transposed` (spec §4.2),
bit-identical to the portable four-lane transposed compression. -/
def compress4_transposed : List u64x4 → List Nat → List Nat → List Nat → List Nat → u64x4 → u64x4 → u64x4 → u64x4 → List u64x4 :=
  portable.compress4_transposed

end sse41

namespace avx2

/-- Modelled from the spec: `avx2::compress` (`avx2.rs` is not under `src/`);
spec §1 and §4.3 require it to "agree bit-exactly with the scalar version", so
it is modelled as computing the same compression function. -/
def compress : List Nat → List Nat → Nat → Nat → Nat → List Nat := portable.compress

/-- Modelled from the spec: `avx2::compress4_transposed` (spec §4.3),
bit-identical to the portable four-lane transposed compression. -/
def compress4_transposed : List u64x4 → List Nat → List Nat → List Nat → List Nat → u64x4 → u64x4 → u64x4 → u64x4 → List u64x4 :=
  portable.compress4_transposed

/-- Modelled from the spec: `avx2::transpose4` (spec §4.3), the same transpose
as the portable reference. -/
def transpose4 : List Nat → List Nat → List Nat → List Nat → List u64x4 := portable.transpose4

/-- Modelled from the spec: `avx2::untranspose4` (spec §4.3), the exact
inverse of `transpose4`. -/
def untranspose4 : List u64x4 → List Nat × List Nat × List Nat × List Nat :=
  portable.untranspose4

end avx2

/-- The `Platform` enum of `src/guts.rs:9` (on x86 all three variants exist). -/
inductive Platform : Type where
  | Portable : Platform
  | SSE41 : Platform
  | AVX2 : Platform
deriving DecidableEq

/-- The `Implementation` dispatch handle of `src/guts.rs:18`: a newtype around
a platform tag. -/
structure Implementation : Type where
  platform : Platform
deriving DecidableEq

/-- `Implementation::portable` (`src/guts.rs:33`). -/
def Implementation.portable : Implementation := ⟨Platform.Portable⟩

/-- The CPU features visible to the constructors of `src/guts.rs`: whether the
build or the running CPU supports AVX2 / SSE4.1 (compile-time `target_feature`
or `is_x86_feature_detected!`, collapsed to one flag each). -/
structure CpuFeatures : Type where
  avx2 : Bool
  sse41 : Bool
deriving DecidableEq

/-- `Implementation::avx2_if_supported` (`src/guts.rs:38`): `Some(AVX2)` when
AVX2 is assumed by the build or detected at runtime, else `None`. -/
def Implementation.avx2_if_supported (env : CpuFeatures) : Option Implementation :=
  if env.avx2 then some ⟨Platform.AVX2⟩ else none

/-- `Implementation::sse41_if_supported` (`src/guts.rs:63`): `Some(SSE41)`
when SSE4.1 is assumed by the build or detected at runtime, else `None`. -/
def Implementation.sse41_if_supported (env : CpuFeatures) : Option Implementation :=
  if env.sse41 then some ⟨Platform.SSE41⟩ else none

/-- `Implementation::detect` (`src/guts.rs:21`): try AVX2, then SSE4.1, then
fall back to portable. -/
def Implementation.detect (env : CpuFeatures) : Implementation :=
  match Implementation.avx2_if_supported env with
  | some avx2Impl => avx2Impl
  | none =>
    match Implementation.sse41_if_supported env with
    | some sse41Impl => sse41Impl
    | none => Implementation.portable

/-- `Implementation::compress` (`src/guts.rs:84`): AVX2 uses the AVX2 kernel;
SSE4.1 falls back to portable (no ported SSE4.1 single-lane compress);
portable uses portable. -/
def Implementation.compress (imp : Implementation) (stateWords : List Nat) (msg : List Nat)
    (count lastblock lastnode : Nat) : List Nat :=
  match imp.platform with
  | Platform.AVX2 => avx2.compress stateWords msg count lastblock lastnode
  | Platform.SSE41 => portable.compress stateWords msg count lastblock lastnode
  | Platform.Portable => portable.compress stateWords msg count lastblock lastnode

/-- `Implementation::transpose2` (`src/guts.rs:106`): only the portable
implementation exists. -/
def Implementation.transpose2 (_ : Implementation) (w0 w1 : List Nat) : List u64x2 :=
  portable.transpose2 w0 w1

/-- `Implementation::untranspose2` (`src/guts.rs:111`): only the portable
implementation exists. -/
def Implementation.untranspose2 (_ : Implementation) (t : List u64x2) : List Nat × List Nat :=
  portable.untranspose2 t

/-- `Implementation::compress2` (`src/guts.rs:116`): AVX2 falls back to the
SSE4.1 kernel; portable uses portable. -/
def Implementation.compress2 (imp : Implementation) (tsw : List u64x2) (msg0 msg1 : List Nat)
    (countLow countHigh lastblock lastnode : u64x2) : List u64x2 :=
  match imp.platform with
  | Platform.AVX2 =>
    sse41.compress2_transposed tsw msg0 msg1 countLow countHigh lastblock lastnode
  | Platform.SSE41 =>
    sse41.compress2_transposed tsw msg0 msg1 countLow countHigh lastblock lastnode
  | Platform.Portable =>
    portable.compress2_transposed tsw msg0 msg1 countLow countHigh lastblock lastnode

/-- `Implementation::transpose4` (`src/guts.rs:154`): AVX2 uses the AVX2
kernel; SSE4.1 falls back to portable. -/
def Implementation.transpose4 (imp : Implementation) (w0 w1 w2 w3 : List Nat) : List u64x4 :=
  match imp.platform with
  | Platform.AVX2 => avx2.transpose4 w0 w1 w2 w3
  | Platform.SSE41 => portable.transpose4 w0 w1 w2 w3
  | Platform.Portable => portable.transpose4 w0 w1 w2 w3

/-- `Implementation::untranspose4` (`src/guts.rs:171`): AVX2 uses the AVX2
kernel; SSE4.1 falls back to portable. -/
def Implementation.untranspose4 (imp : Implementation) (t : List u64x4) :
    List Nat × List Nat × List Nat × List Nat :=
  match imp.platform with
  | Platform.AVX2 => avx2.untranspose4 t
  | Platform.SSE41 => portable.untranspose4 t
  | Platform.Portable => portable.untranspose4 t

/-- `Implementation::compress4` (`src/guts.rs:189`): AVX2 uses the AVX2
kernel, SSE4.1 the SSE4.1 kernel, portable the portable kernel. -/
def Implementation.compress4 (imp : Implementation) (tsw : List u64x4)
    (msg0 msg1 msg2 msg3 : List Nat) (countLow countHigh lastblock lastnode : u64x4) :
    List u64x4 :=
  match imp.platform with
  | Platform.AVX2 =>
    avx2.compress4_transposed tsw msg0 msg1 msg2 msg3 countLow countHigh lastblock lastnode
  | Platform.SSE41 =>
    sse41.compress4_transposed tsw msg0 msg1 msg2 msg3 countLow countHigh lastblock lastnode
  | Platform.Portable =>
    portable.compress4_transposed tsw msg0 msg1 msg2 msg3 countLow countHigh lastblock lastnode

/-- The split view of `u64x4::split` (`src/guts.rs:271`): the `#[repr(C)]`
four-word array reinterpreted as two `u64x2` halves, so half `i`, lane `j` is
word `2*i + j` of the underlying array. -/
def u64x4.split (x : u64x4) : List u64x2 := [x.take 2, x.drop 2]

/-- A write through the mutable split view of `u64x4::split_mut`
(`src/guts.rs:279`): writing half `i`, lane `j` updates word `2*i + j` of the
underlying array. -/
def u64x4.writeSplit (x : u64x4) (i j : Nat) (v : Nat) : u64x4 :=
  x.set (2 * i + j) v

/-- Block size in bytes (`BLOCKBYTES = 128`, spec §6). -/
def BLOCKBYTES : Nat := 128

/-- Maximum digest size in bytes (`OUTBYTES = 64`, spec §6). -/
def OUTBYTES : Nat := 64

/-- Maximum key size in bytes (`KEYBYTES = 64`, spec §6). -/
def KEYBYTES : Nat := 64

/-- Maximum salt size in bytes (`SALTBYTES = 16`, spec §6). -/
def SALTBYTES : Nat := 16

/-- Maximum personalization size in bytes (`PERSONALBYTES = 16`, spec §6). -/
def PERSONALBYTES : Nat := 16

/-- Zero-pad a byte list on the right to length `n`. -/
def padTo (n : Nat) (l : List Nat) : List Nat := l ++ List.replicate (n - l.length) 0

/-- Modelled from the spec: the BLAKE2b `Params` record (spec §4.5; the
`Params` code is not under `src/`).  Defaults: digest length 64, no key, empty
salt/personal, `fanout = 1`, `max_depth = 1`, everything else zero. -/
structure Params where
  hashLength : Nat := 64
  keyBytes : List Nat := []
  saltBytes : List Nat := []
  personalBytes : List Nat := []
  fanoutByte : Nat := 1
  maxDepth : Nat := 1
  maxLeafLength : Nat := 0
  nodeOffsetWord : Nat := 0
  nodeDepthByte : Nat := 0
  innerHashLength : Nat := 0
  lastNode : Bool := false
deriving DecidableEq

/-- Modelled from the spec: the `hash_length` builder; "1..=64; fails if out of
range" (spec §4.5).  `none` models the panic. -/
def Params.hash_length (p : Params) (n : Nat) : Option Params :=
  if 1 ≤ n ∧ n ≤ OUTBYTES then some { p with hashLength := n } else none

/-- Modelled from the spec: the `key` builder; "len 0..=64; fails if >64.
Setting again replaces the previous key" (spec §4.5). -/
def Params.key (p : Params) (k : List Nat) : Option Params :=
  if k.length ≤ KEYBYTES then some { p with keyBytes := k } else none

/-- Modelled from the spec: the `salt` builder; "len 0..=16; fails if >16"
(spec §4.5). -/
def Params.salt (p : Params) (s : List Nat) : Option Params :=
  if s.length ≤ SALTBYTES then some { p with saltBytes := s } else none

/-- Modelled from the spec: the `personal` builder; "len 0..=16; fails if >16"
(spec §4.5). -/
def Params.personal (p : Params) (s : List Nat) : Option Params :=
  if s.length ≤ PERSONALBYTES then some { p with personalBytes := s } else none

/-- Modelled from the spec: the `fanout` builder; any u8 (spec §4.5). -/
def Params.fanout (p : Params) (n : Nat) : Params := { p with fanoutByte := n % 2 ^ 8 }

/-- Modelled from the spec: the `max_depth` builder; "1..=255; fails if 0"
(spec §4.5). -/
def Params.max_depth (p : Params) (n : Nat) : Option Params :=
  if 1 ≤ n then some { p with maxDepth := n % 2 ^ 8 } else none

/-- Modelled from the spec: the `max_leaf_length` builder; any u32 (spec §4.5). -/
def Params.max_leaf_length (p : Params) (n : Nat) : Params :=
  { p with maxLeafLength := n % 2 ^ 32 }

/-- Modelled from the spec: the `node_offset` builder; any u64 (spec §4.5). -/
def Params.node_offset (p : Params) (n : Nat) : Params :=
  { p with nodeOffsetWord := n % U64 }

/-- Modelled from the spec: the `node_depth` builder; any u8 (spec §4.5). -/
def Params.node_depth (p : Params) (n : Nat) : Params := { p with nodeDepthByte := n % 2 ^ 8 }

/-- Modelled from the spec: the `inner_hash_length` builder; "0..=64; fails if
>64" (spec §4.5). -/
def Params.inner_hash_length (p : Params) (n : Nat) : Option Params :=
  if n ≤ OUTBYTES then some { p with innerHashLength := n } else none

/-- Modelled from the spec: the `last_node` builder; "sticky flag on the
resulting state" (spec §4.5). -/
def Params.last_node (p : Params) (b : Bool) : Params := { p with lastNode := b }

/-- Modelled from the spec: the 64-byte parameter block of spec §3, read back
as its 8 little-endian words.  Word 0 packs digest length, key length, fanout
and depth plus the 32-bit leaf length; word 1 is the node offset; word 2 packs
node depth and inner hash length; word 3 is reserved; words 4-7 hold the
zero-padded salt and personalization. -/
def Params.words (p : Params) : List Nat :=
  [p.hashLength % 2 ^ 8 + p.keyBytes.length % 2 ^ 8 * 2 ^ 8 + p.fanoutByte % 2 ^ 8 * 2 ^ 16 +
     p.maxDepth % 2 ^ 8 * 2 ^ 24 + p.maxLeafLength % 2 ^ 32 * 2 ^ 32,
   p.nodeOffsetWord % U64,
   p.nodeDepthByte % 2 ^ 8 + p.innerHashLength % 2 ^ 8 * 2 ^ 8,
   0,
   load64 (padTo SALTBYTES p.saltBytes) 0,
   load64 (padTo SALTBYTES p.saltBytes) 1,
   load64 (padTo PERSONALBYTES p.personalBytes) 0,
   load64 (padTo PERSONALBYTES p.personalBytes) 1]

/-- Modelled from the spec: the streaming state machine (spec §3, §4.5): the
chaining value `h` (8 words), the 128-bit counter `t` of bytes already
compressed, the pending input buffer (0..=128 bytes), the digest length, the
sticky `last_node` flag, and whether a key block was prepended (used by
`count`).  The implementation handle is omitted: all dispatched kernels agree
bit-exactly with the portable one, which the state uses below. -/
structure State where
  h : List Nat
  t : Nat
  buf : List Nat
  hashLength : Nat
  lastNode : Bool
  keyed : Bool
deriving DecidableEq

/-- Modelled from the spec: the "compress whole blocks directly from the
input" loop of `State::update` step 2 (spec §4.5), fuelled for structural
recursion.  Compresses leading 128-byte blocks of `inp` as long as strictly
more than one block remains ("holding back at least one byte"), advancing the
counter by 128 per block. -/
def absorbAux : Nat → List Nat → Nat → List Nat → List Nat × Nat × List Nat
  | 0, h, t, inp => (h, t, inp)
  | fuel + 1, h, t, inp =>
    if BLOCKBYTES < inp.length then
      absorbAux fuel (portable.compress h (inp.take BLOCKBYTES) (t + BLOCKBYTES) 0 0)
        (t + BLOCKBYTES) (inp.drop BLOCKBYTES)
    else (h, t, inp)

/-- `absorbAux` with enough fuel to exhaust its input. -/
def absorb (h : List Nat) (t : Nat) (inp : List Nat) : List Nat × Nat × List Nat :=
  absorbAux inp.length h t inp

/-- Modelled from the spec: `State::update` (spec §4.5).  Fill the buffer from
the input; if input remains beyond the filled buffer, compress the buffered
block with `last_block = 0` (step 1), compress whole blocks directly while
more than one block of input remains (step 2), and buffer the tail (step 3).
If the input does not overflow the buffer, only the buffer grows — in
particular the block that just filled the buffer is not compressed. -/
def State.update (s : State) (input : List Nat) : State :=
  let n := min (BLOCKBYTES - s.buf.length) input.length
  let buf1 := s.buf ++ input.take n
  let rest := input.drop n
  if rest.isEmpty then { s with buf := buf1 }
  else
    let h1 := portable.compress s.h buf1 (s.t + BLOCKBYTES) 0 0
    let r := absorb h1 (s.t + BLOCKBYTES) rest
    { s with h := r.1, t := r.2.1, buf := r.2.2 }

/-- Modelled from the spec: deriving the initial state (spec §4.5): XOR the 8
parameter-block words into the 8 IV words; if a key is set, prepend a single
128-byte key block (key bytes followed by zeros) as the first input. -/
def Params.to_state (p : Params) : State :=
  let s0 : State :=
    { h := List.zipWith Nat.xor IV p.words, t := 0, buf := [],
      hashLength := p.hashLength, lastNode := p.lastNode, keyed := !p.keyBytes.isEmpty }
  if p.keyBytes.isEmpty then s0 else s0.update (padTo BLOCKBYTES p.keyBytes)

/-- `State::new`: the state of the default parameters (spec §6). -/
def State.new : State := Params.to_state {}

/-- Modelled from the spec: `State::set_last_node` (spec §6). -/
def State.set_last_node (s : State) (b : Bool) : State := { s with lastNode := b }

/-- Modelled from the spec: `State::count` (spec §4.5): total bytes the caller
has supplied (buffer length included, key block excluded), as a u128. -/
def State.count (s : State) : Nat :=
  (s.t + s.buf.length - (if s.keyed then BLOCKBYTES else 0)) % 2 ^ 128

/-- Serialize state words as little-endian bytes (spec §6, "wire formats"). -/
def storeWords (ws : List Nat) : List Nat :=
  ws.flatMap (fun w => (List.range 8).map (fun b => (w >>> (8 * b)) % 2 ^ 8))

/-- Modelled from the spec: `State::finalize` (spec §4.5): on a copy of `h`,
`t` and the buffer, zero-pad the buffer to 128 bytes, compress with
`t += buffer_length`, `last_block = ALL_ONES`, `last_node = (state.last_node ?
ALL_ONES : 0)`, and serialize the first `digest_length` little-endian bytes of
`h` as the digest. -/
def State.finalize (s : State) : List Nat :=
  let h' := portable.compress s.h (padTo BLOCKBYTES s.buf) (s.t + s.buf.length) ALLONES
    (if s.lastNode then ALLONES else 0)
  (storeWords h').take s.hashLength

/-- Modelled from the spec: `finalize` through the mutable-state view: the
digest together with the state the caller retains, which `finalize` leaves
untouched (spec §4.5: "The caller's state is unchanged"). -/
def State.finalizeSt (s : State) : List Nat × State := (s.finalize, s)

/-- `blake2b(input)`: one-shot hashing with the default parameters (spec §6). -/
def blake2b (input : List Nat) : List Nat := (State.new.update input).finalize

/-- Lowercase hex digit. -/
def hexChar (n : Nat) : Char := "0123456789abcdef".toList.getD n 'x'

/-- Modelled from the spec: `Hash::to_hex`, the lowercase hex rendering of a
digest (spec §6). -/
def to_hex (bytes : List Nat) : String :=
  String.mk (bytes.flatMap (fun b => [hexChar (b / 2 ^ 4), hexChar (b % 2 ^ 4)]))

/-- A lane of the parallel driver: a state together with its not-yet-consumed
input slice. -/
def Lane : Type := State × List Nat

/-- Bytes pending in a lane: current buffer plus fresh input (spec §4.6). -/
def lanePending (l : Lane) : Nat := l.1.buf.length + l.2.length

/-- The lane's next 128-byte block to compress (spec §4.6 step 1). -/
def laneBlock (l : Lane) : List Nat := (l.1.buf ++ l.2).take BLOCKBYTES

/-- The lane's byte counter after absorbing its next block. -/
def laneCount (l : Lane) : Nat := l.1.t + BLOCKBYTES

/-- Consume one 128-byte block from a lane, storing the lane's new chaining
value and advancing its counter by 128 (spec §4.6 step 2). -/
def laneAdvance (l : Lane) (h' : List Nat) : Lane :=
  ({ l.1 with h := h', t := l.1.t + BLOCKBYTES, buf := [] }, (l.1.buf ++ l.2).drop BLOCKBYTES)

/-- Modelled from the spec: the parallel phase of `update4` (spec §4.6),
fuelled for structural recursion.  While all four lanes have at least 129
pending bytes, transpose the chaining values, run one `compress4_transposed`
with per-lane counts and `last_block = 0, last_node = 0` through the dispatch
handle, untranspose, and advance every lane by one block.  As soon as any lane
drops out (or fuel runs out), the remaining input of each lane is fed through
`State::update`. -/
def update4Aux (imp : Implementation) : Nat → Lane → Lane → Lane → Lane →
    State × State × State × State
  | 0, l0, l1, l2, l3 =>
    (l0.1.update l0.2, l1.1.update l1.2, l2.1.update l2.2, l3.1.update l3.2)
  | fuel + 1, l0, l1, l2, l3 =>
    if BLOCKBYTES < lanePending l0 ∧ BLOCKBYTES < lanePending l1 ∧
        BLOCKBYTES < lanePending l2 ∧ BLOCKBYTES < lanePending l3 then
      let ts := imp.transpose4 l0.1.h l1.1.h l2.1.h l3.1.h
      let cl : u64x4 := [laneCount l0 % U64, laneCount l1 % U64, laneCount l2 % U64,
        laneCount l3 % U64]
      let ch : u64x4 := [(laneCount l0 >>> 64) % U64, (laneCount l1 >>> 64) % U64,
        (laneCount l2 >>> 64) % U64, (laneCount l3 >>> 64) % U64]
      let zv : u64x4 := [0, 0, 0, 0]
      let ts' := imp.compress4 ts (laneBlock l0) (laneBlock l1) (laneBlock l2) (laneBlock l3)
        cl ch zv zv
      let hs := imp.untranspose4 ts'
      update4Aux imp fuel (laneAdvance l0 hs.1) (laneAdvance l1 hs.2.1)
        (laneAdvance l2 hs.2.2.1) (laneAdvance l3 hs.2.2.2)
    else
      (l0.1.update l0.2, l1.1.update l1.2, l2.1.update l2.2, l3.1.update l3.2)

/-- Modelled from the spec: `update4` (spec §4.6; the parallel driver is not
under `src/`): feed four independent states and four input slices through the
4-way compression kernel while all four can progress together, then finish
each lane through `State::update`, buffering tails.  The fuel bounds the
number of parallel iterations; lane 0 loses 128 pending bytes per iteration,
so its initial pending count suffices. -/
def update4 (imp : Implementation) (s0 s1 s2 s3 : State) (i0 i1 i2 i3 : List Nat) :
    State × State × State × State :=
  update4Aux imp (lanePending (s0, i0)) (s0, i0) (s1, i1) (s2, i2) (s3, i3)

/-- Modelled from the spec: `finalize4` (spec §4.6): when all four states have
equal remaining buffer length, run the final compression through
`compress4_transposed` with per-lane counts, `last_block = ALL_ONES` and
per-lane last-node flags; otherwise finalize each lane individually.  Result:
the four digests. -/
def finalize4 (imp : Implementation) (s0 s1 s2 s3 : State) :
    List Nat × List Nat × List Nat × List Nat :=
  if s0.buf.length = s1.buf.length ∧ s1.buf.length = s2.buf.length ∧
      s2.buf.length = s3.buf.length then
    let ts := imp.transpose4 s0.h s1.h s2.h s3.h
    let cnt := fun (s : State) => s.t + s.buf.length
    let cl : u64x4 := [cnt s0 % U64, cnt s1 % U64, cnt s2 % U64, cnt s3 % U64]
    let ch : u64x4 := [(cnt s0 >>> 64) % U64, (cnt s1 >>> 64) % U64, (cnt s2 >>> 64) % U64,
      (cnt s3 >>> 64) % U64]
    let lb : u64x4 := [ALLONES, ALLONES, ALLONES, ALLONES]
    let lnf : u64x4 := [s0, s1, s2, s3].map (fun s => if s.lastNode then ALLONES else 0)
    let ts' := imp.compress4 ts (padTo BLOCKBYTES s0.buf) (padTo BLOCKBYTES s1.buf)
      (padTo BLOCKBYTES s2.buf) (padTo BLOCKBYTES s3.buf) cl ch lb lnf
    let hs := imp.untranspose4 ts'
    ((storeWords hs.1).take s0.hashLength, (storeWords hs.2.1).take s1.hashLength,
     (storeWords hs.2.2.1).take s2.hashLength, (storeWords hs.2.2.2).take s3.hashLength)
  else
    (s0.finalize, s1.finalize, s2.finalize, s3.finalize)

/-- Modelled from the spec: the BLAKE2bp `Params` record (spec §4.7; the
BLAKE2bp code is not under `src/`): a digest length and an optional key. -/
structure Blake2bpParams where
  hashLength : Nat := 64
  keyBytes : List Nat := []
deriving DecidableEq

/-- Modelled from the spec: the BLAKE2bp `hash_length` builder; "parameter
constraints on `hash_length`/`key` apply to the BLAKE2bp `Params` the same
way" (spec §4.7), so digest lengths outside 1..=64 fail. -/
def Blake2bpParams.hash_length (p : Blake2bpParams) (n : Nat) : Option Blake2bpParams :=
  if 1 ≤ n ∧ n ≤ OUTBYTES then some { p with hashLength := n } else none

/-- Modelled from the spec: the BLAKE2bp `key` builder; keys longer than 64
bytes fail (spec §4.7). -/
def Blake2bpParams.key (p : Blake2bpParams) (k : List Nat) : Option Blake2bpParams :=
  if k.length ≤ KEYBYTES then some { p with keyBytes := k } else none

/-! ### Lane projection: the transposed kernels lane by lane -/

theorem rotr64_zero (r : Nat) : rotr64 r 0 = 0 := by
  unfold rotr64
  simp

theorem getD_lzip (f : Nat → Nat → Nat) (hf : f 0 0 = 0) (a b : List Nat) (j : Nat) :
    (lzip f a b).getD j 0 = f (a.getD j 0) (b.getD j 0) := by
  unfold lzip
  rcases Nat.lt_or_ge j (max a.length b.length) with h | h
  · rw [List.getD_eq_getElem _ _ (by simpa using h)]
    simp
  · rw [List.getD_eq_default _ _ (by simpa using h),
      List.getD_eq_default _ _ (le_trans (le_max_left _ _) h),
      List.getD_eq_default _ _ (le_trans (le_max_right _ _) h), hf]

theorem getD_map_zero (f : Nat → Nat) (hf : f 0 = 0) (a : List Nat) (j : Nat) :
    (a.map f).getD j 0 = f (a.getD j 0) := by
  rcases Nat.lt_or_ge j a.length with h | h
  · rw [List.getD_eq_getElem _ _ (by simpa using h), List.getD_eq_getElem _ _ h]
    simp
  · rw [List.getD_eq_default _ _ (by simpa using h), List.getD_eq_default _ _ h, hf]

theorem lane_add (n : Nat) (a b : List Nat) (j : Nat) :
    ((laneOps n).add a b).getD j 0 = wAdd (a.getD j 0) (b.getD j 0) :=
  getD_lzip wAdd (by simp [wAdd]) a b j

theorem lane_xor (n : Nat) (a b : List Nat) (j : Nat) :
    ((laneOps n).xor a b).getD j 0 = Nat.xor (a.getD j 0) (b.getD j 0) :=
  getD_lzip Nat.xor rfl a b j

theorem lane_rotr (n r : Nat) (a : List Nat) (j : Nat) :
    ((laneOps n).rotr r a).getD j 0 = rotr64 r (a.getD j 0) :=
  getD_map_zero (rotr64 r) (rotr64_zero r) a j

theorem lane_zero (n j : Nat) : ((laneOps n).zero).getD j 0 = 0 := by
  show (List.replicate n 0).getD j 0 = 0
  rcases Nat.lt_or_ge j n with h | h
  · rw [List.getD_eq_getElem _ _ (by simpa using h)]
    simp
  · exact List.getD_eq_default _ _ (by simpa using h)

theorem proj_getD (n : Nat) (v : List (List Nat)) (i j : Nat) :
    (v.getD i ((laneOps n).zero)).getD j 0 = (v.map (fun w => w.getD j 0)).getD i 0 := by
  induction v generalizing i with
  | nil => simpa using lane_zero n j
  | cons w v ih =>
    cases i with
    | zero => simp
    | succ i => simpa using ih i

theorem gG_lane (n j : Nat) (v : List (List Nat)) (a b c d : Nat) (x y : List Nat) :
    (gG (laneOps n) v a b c d x y).map (fun w => w.getD j 0) =
      gG scalarOps (v.map (fun w => w.getD j 0)) a b c d (x.getD j 0) (y.getD j 0) := by
  simp only [gG, List.map_set, lane_add, lane_xor, lane_rotr, proj_getD, scalarOps]

theorem ground_lane (n j : Nat) (m : List (List Nat)) (s : List Nat) (v : List (List Nat)) :
    (ground (laneOps n) m s v).map (fun w => w.getD j 0) =
      ground scalarOps (m.map (fun w => w.getD j 0)) s (v.map (fun w => w.getD j 0)) := by
  simp only [ground, gG_lane, proj_getD, scalarOps]

theorem foldl_lane (n j : Nat) (m : List (List Nat)) (L : List (List Nat))
    (v : List (List Nat)) :
    (L.foldl (fun w s => ground (laneOps n) m s w) v).map (fun w => w.getD j 0) =
      L.foldl (fun w s => ground scalarOps (m.map (fun w => w.getD j 0)) s w)
        (v.map (fun w => w.getD j 0)) := by
  induction L generalizing v with
  | nil => rfl
  | cons s L ih => simp only [List.foldl_cons, ih, ground_lane]

theorem ivLanes_lane (n j : Nat) (hj : j < n) :
    (ivLanes n).map (fun w => w.getD j 0) = IV := by
  have hc : ∀ c : Nat, (List.replicate n c).getD j 0 = c := fun c => by
    rw [List.getD_eq_getElem _ _ (by simpa using hj)]
    simp
  unfold ivLanes
  rw [List.map_map]
  have he : (fun w : List Nat => w.getD j 0) ∘ List.replicate n = id := funext fun c => hc c
  rw [he, List.map_id]

theorem gcompress_lane (n j : Nat) (hj : j < n) (h m : List (List Nat))
    (tlo thi f0 f1 : List Nat) :
    (gcompress (laneOps n) (ivLanes n) h m tlo thi f0 f1).map (fun w => w.getD j 0) =
      gcompress scalarOps IV (h.map (fun w => w.getD j 0)) (m.map (fun w => w.getD j 0))
        (tlo.getD j 0) (thi.getD j 0) (f0.getD j 0) (f1.getD j 0) := by
  simp only [gcompress, List.map_set, List.map_append, ivLanes_lane n j hj, foldl_lane,
    List.map_map, Function.comp_def, lane_add, lane_xor, lane_rotr, proj_getD, scalarOps]

theorem tload2_lane (j : Nat) (hj : j < 2) (m0 m1 : List Nat) :
    (tload2 m0 m1).map (fun w => w.getD j 0) = loadBlock ([m0, m1].getD j []) := by
  interval_cases j <;> simp [tload2, loadBlock, List.map_map, Function.comp_def]

theorem tload4_lane (j : Nat) (hj : j < 4) (m0 m1 m2 m3 : List Nat) :
    (tload4 m0 m1 m2 m3).map (fun w => w.getD j 0) =
      loadBlock ([m0, m1, m2, m3].getD j []) := by
  interval_cases j <;> simp [tload4, loadBlock, List.map_map, Function.comp_def]

theorem count_split (a b : Nat) (ha : a < U64) (hb : b < U64) :
    (a + 2 ^ 64 * b) % U64 = a ∧ ((a + 2 ^ 64 * b) >>> 64) % U64 = b := by
  simp only [U64, Nat.shiftRight_eq_div_pow] at ha hb ⊢
  omega

theorem compress2_transposed_lane (j : Nat) (hj : j < 2) (tsw : List u64x2)
    (m0 m1 : List Nat) (cl ch lb lnf : u64x2) :
    listLane j (portable.compress2_transposed tsw m0 m1 cl ch lb lnf) =
      gcompress scalarOps IV (listLane j tsw) (loadBlock ([m0, m1].getD j []))
        (cl.getD j 0) (ch.getD j 0) (lb.getD j 0) (lnf.getD j 0) := by
  unfold portable.compress2_transposed listLane
  rw [gcompress_lane 2 j hj, tload2_lane j hj]

theorem compress4_transposed_lane (j : Nat) (hj : j < 4) (tsw : List u64x4)
    (m0 m1 m2 m3 : List Nat) (cl ch lb lnf : u64x4) :
    listLane j (portable.compress4_transposed tsw m0 m1 m2 m3 cl ch lb lnf) =
      gcompress scalarOps IV (listLane j tsw) (loadBlock ([m0, m1, m2, m3].getD j []))
        (cl.getD j 0) (ch.getD j 0) (lb.getD j 0) (lnf.getD j 0) := by
  unfold portable.compress4_transposed listLane
  rw [gcompress_lane 4 j hj, tload4_lane j hj]

theorem map_getD_range (l : List Nat) (n : Nat) (h : l.length = n) :
    (List.range n).map (fun i => l.getD i 0) = l := by
  apply List.ext_getElem
  · simp [h]
  · intro i h1 h2
    simp only [List.getElem_map, List.getElem_range]
    exact List.getD_eq_getElem _ _ h2

theorem transpose2_lane (j : Nat) (hj : j < 2) (a b : List Nat)
    (h : ([a, b].getD j []).length = 8) :
    listLane j (portable.transpose2 a b) = [a, b].getD j [] := by
  interval_cases j <;>
    simpa [listLane, portable.transpose2, List.map_map, Function.comp_def] using
      map_getD_range _ _ (by simpa using h)

theorem transpose4_lane (j : Nat) (hj : j < 4) (a b c d : List Nat)
    (h : ([a, b, c, d].getD j []).length = 8) :
    listLane j (portable.transpose4 a b c d) = [a, b, c, d].getD j [] := by
  interval_cases j <;>
    simpa [listLane, portable.transpose4, List.map_map, Function.comp_def] using
      map_getD_range _ _ (by simpa using h)

/-! ### Dispatch fallbacks: every platform computes the portable result -/

theorem dispatch_compress (imp : Implementation) (h m : List Nat) (c lb lnf : Nat) :
    imp.compress h m c lb lnf = portable.compress h m c lb lnf := by
  obtain ⟨p⟩ := imp
  cases p <;> rfl

theorem dispatch_compress2 (imp : Implementation) (tsw : List u64x2) (m0 m1 : List Nat)
    (cl ch lb lnf : u64x2) :
    imp.compress2 tsw m0 m1 cl ch lb lnf =
      portable.compress2_transposed tsw m0 m1 cl ch lb lnf := by
  obtain ⟨p⟩ := imp
  cases p <;> rfl

theorem dispatch_compress4 (imp : Implementation) (tsw : List u64x4)
    (m0 m1 m2 m3 : List Nat) (cl ch lb lnf : u64x4) :
    imp.compress4 tsw m0 m1 m2 m3 cl ch lb lnf =
      portable.compress4_transposed tsw m0 m1 m2 m3 cl ch lb lnf := by
  obtain ⟨p⟩ := imp
  cases p <;> rfl

theorem dispatch_transpose4 (imp : Implementation) (a b c d : List Nat) :
    imp.transpose4 a b c d = portable.transpose4 a b c d := by
  obtain ⟨p⟩ := imp
  cases p <;> rfl

theorem dispatch_untranspose4 (imp : Implementation) (t : List u64x4) :
    imp.untranspose4 t = portable.untranspose4 t := by
  obtain ⟨p⟩ := imp
  cases p <;> rfl

/-- C1: for every implementation handle (Portable, SSE4.1, AVX2) and every
input, the dispatched operations `compress`, `compress2`, `compress4`,
`transpose2`/`untranspose2` and `transpose4`/`untranspose4` produce
bit-identical results to the portable implementation of the same operation. -/
theorem claim_C1_dispatch_agrees_with_portable : ∀ (imp : Implementation),
    (∀ (h m : List Nat) (c lb lnf : Nat),
      imp.compress h m c lb lnf = Implementation.portable.compress h m c lb lnf) ∧
    (∀ (tsw : List u64x2) (m0 m1 : List Nat) (cl ch lb lnf : u64x2),
      imp.compress2 tsw m0 m1 cl ch lb lnf =
        Implementation.portable.compress2 tsw m0 m1 cl ch lb lnf) ∧
    (∀ (tsw : List u64x4) (m0 m1 m2 m3 : List Nat) (cl ch lb lnf : u64x4),
      imp.compress4 tsw m0 m1 m2 m3 cl ch lb lnf =
        Implementation.portable.compress4 tsw m0 m1 m2 m3 cl ch lb lnf) ∧
    (∀ (a b : List Nat), imp.transpose2 a b = Implementation.portable.transpose2 a b) ∧
    (∀ (t : List u64x2), imp.untranspose2 t = Implementation.portable.untranspose2 t) ∧
    (∀ (a b c d : List Nat),
      imp.transpose4 a b c d = Implementation.portable.transpose4 a b c d) ∧
    (∀ (t : List u64x4), imp.untranspose4 t = Implementation.portable.untranspose4 t) := by
  intro imp
  obtain ⟨p⟩ := imp
  cases p <;>
    exact ⟨fun _ _ _ _ _ => rfl, fun _ _ _ _ _ _ _ => rfl, fun _ _ _ _ _ _ _ _ _ => rfl,
      fun _ _ => rfl, fun _ => rfl, fun _ _ _ _ => rfl, fun _ => rfl⟩

/-- C8: lane independence of the transposed kernels.  For every
implementation, `compress2_transposed` and `compress4_transposed` produce, in
each lane `j`, exactly the state that the single-lane compress produces from
lane `j`'s state, block, count and flag words, with no cross-lane mixing, even
when the per-lane counts and arbitrary flag words all differ. -/
theorem claim_C8_lane_independence :
    ∀ (imp : Implementation) (j : Nat),
      (∀ (tsw : List u64x2) (m0 m1 : List Nat) (cl ch lb lnf : u64x2),
        j < 2 → cl.getD j 0 < U64 → ch.getD j 0 < U64 →
        listLane j (imp.compress2 tsw m0 m1 cl ch lb lnf) =
          portable.compress (listLane j tsw) ([m0, m1].getD j [])
            (cl.getD j 0 + 2 ^ 64 * ch.getD j 0) (lb.getD j 0) (lnf.getD j 0)) ∧
      (∀ (tsw : List u64x4) (m0 m1 m2 m3 : List Nat) (cl ch lb lnf : u64x4),
        j < 4 → cl.getD j 0 < U64 → ch.getD j 0 < U64 →
        listLane j (imp.compress4 tsw m0 m1 m2 m3 cl ch lb lnf) =
          portable.compress (listLane j tsw) ([m0, m1, m2, m3].getD j [])
            (cl.getD j 0 + 2 ^ 64 * ch.getD j 0) (lb.getD j 0) (lnf.getD j 0)) := by
  intro imp j
  constructor
  · intro tsw m0 m1 cl ch lb lnf hj hcl hch
    rw [dispatch_compress2, compress2_transposed_lane j hj]
    unfold portable.compress
    rw [(count_split _ _ hcl hch).1, (count_split _ _ hcl hch).2]
  · intro tsw m0 m1 m2 m3 cl ch lb lnf hj hcl hch
    rw [dispatch_compress4, compress4_transposed_lane j hj]
    unfold portable.compress
    rw [(count_split _ _ hcl hch).1, (count_split _ _ hcl hch).2]

theorem claim_C8_lane_independence_witness :
    listLane 1 (Implementation.portable.compress2 [[3, 4]] (List.replicate 128 1)
        (List.replicate 128 2) [5, 6] [7, 8] [9, 10] [11, 12]) =
      portable.compress (listLane 1 [[3, 4]])
        ([List.replicate 128 1, List.replicate 128 2].getD 1 [])
        ([5, 6].getD 1 0 + 2 ^ 64 * [7, 8].getD 1 0) ([9, 10].getD 1 0)
        ([11, 12].getD 1 0) ∧
    listLane 2 (Implementation.portable.compress4 [[3, 4, 5, 6]] (List.replicate 128 1)
        (List.replicate 128 2) (List.replicate 128 3) (List.replicate 128 4)
        [5, 6, 7, 8] [9, 10, 11, 12] [13, 14, 15, 16] [17, 18, 19, 20]) =
      portable.compress (listLane 2 [[3, 4, 5, 6]])
        ([List.replicate 128 1, List.replicate 128 2, List.replicate 128 3,
            List.replicate 128 4].getD 2 [])
        ([5, 6, 7, 8].getD 2 0 + 2 ^ 64 * [9, 10, 11, 12].getD 2 0)
        ([13, 14, 15, 16].getD 2 0) ([17, 18, 19, 20].getD 2 0) :=
  ⟨(claim_C8_lane_independence Implementation.portable 1).1 _ _ _ _ _ _ _
      (by decide) (by decide) (by decide),
   (claim_C8_lane_independence Implementation.portable 2).2 _ _ _ _ _ _ _ _ _
      (by decide) (by decide) (by decide)⟩

/-- C9: `Implementation::detect` is total and follows the priority chain: it
returns the AVX2 implementation whenever `avx2_if_supported` returns `Some`,
otherwise the SSE4.1 implementation whenever `sse41_if_supported` returns
`Some`, and otherwise the portable implementation. -/
theorem claim_C9_detect_priority : ∀ env : CpuFeatures,
    Implementation.detect env =
      (Implementation.avx2_if_supported env).getD
        ((Implementation.sse41_if_supported env).getD Implementation.portable) := by
  intro env
  obtain ⟨a, s⟩ := env
  cases a <;> cases s <;> rfl

/-- C10: the split view of `u64x4` maps indices in order without reordering:
`x.split()[i][j]` equals word `2*i + j` of `x`, and a write through
`split_mut` at `(i, j)` changes exactly word `2*i + j`, leaving the other
words unchanged. -/
theorem claim_C10_split_layout : ∀ (x : u64x4) (i j v k : Nat),
    x.length = 4 → i < 2 → j < 2 → k < 4 →
    ((u64x4.split x).getD i []).getD j 0 = x.getD (2 * i + j) 0 ∧
    (u64x4.writeSplit x i j v).getD (2 * i + j) 0 = v ∧
    (k ≠ 2 * i + j → (u64x4.writeSplit x i j v).getD k 0 = x.getD k 0) := by
  intro x i j v k hx hi hj hk
  refine ⟨?_, ?_, ?_⟩
  · unfold u64x4.split
    interval_cases i <;> interval_cases j <;>
      simp [List.getD_eq_getElem, List.getElem_take, List.getElem_drop, hx]
  · unfold u64x4.writeSplit
    rw [List.getD_eq_getElem _ _ (by simp [hx]; omega)]
    exact List.getElem_set_self _
  · intro hne
    unfold u64x4.writeSplit
    rw [List.getD_eq_getElem _ _ (by simp [hx]; omega),
      List.getD_eq_getElem _ _ (by omega)]
    exact List.getElem_set_ne (by omega) _

theorem claim_C10_split_layout_witness :
    ((u64x4.split [10, 20, 30, 40]).getD 1 []).getD 0 0 = [10, 20, 30, 40].getD 2 0 ∧
    (u64x4.writeSplit [10, 20, 30, 40] 1 0 7).getD 2 0 = 7 ∧
    (0 ≠ 2 * 1 + 0 → (u64x4.writeSplit [10, 20, 30, 40] 1 0 7).getD 0 0 =
      [10, 20, 30, 40].getD 0 0) :=
  claim_C10_split_layout [10, 20, 30, 40] 1 0 7 0 (by decide) (by decide) (by decide)
    (by decide)

/-- C7: each `Params` builder (for both BLAKE2b and BLAKE2bp) fails exactly on
out-of-range arguments: `hash_length` of 0 or greater than 64, keys longer
than 64 bytes, salts longer than 16 bytes, personalizations longer than 16
bytes, `max_depth` of 0, and `inner_hash_length` greater than 64; every
in-range argument is accepted. -/
theorem claim_C7_builder_panics : ∀ (p : Params) (q : Blake2bpParams) (n : Nat)
    (bs : List Nat),
    (p.hash_length n = none ↔ n = 0 ∨ OUTBYTES < n) ∧
    (p.key bs = none ↔ KEYBYTES < bs.length) ∧
    (p.salt bs = none ↔ SALTBYTES < bs.length) ∧
    (p.personal bs = none ↔ PERSONALBYTES < bs.length) ∧
    (p.max_depth n = none ↔ n = 0) ∧
    (p.inner_hash_length n = none ↔ OUTBYTES < n) ∧
    (q.hash_length n = none ↔ n = 0 ∨ OUTBYTES < n) ∧
    (q.key bs = none ↔ KEYBYTES < bs.length) := by
  intro p q n bs
  unfold Params.hash_length Params.key Params.salt Params.personal Params.max_depth
    Params.inner_hash_length Blake2bpParams.hash_length Blake2bpParams.key
  refine ⟨?_, ?_, ?_, ?_, ?_, ?_, ?_, ?_⟩ <;> split_ifs <;> simp_all <;> omega

/-! ### The streaming state: `update` as block absorption -/

theorem absorbAux_of_le (fuel : Nat) (h : List Nat) (t : Nat) (inp : List Nat)
    (hle : inp.length ≤ BLOCKBYTES) : absorbAux fuel h t inp = (h, t, inp) := by
  cases fuel with
  | zero => rfl
  | succ fuel =>
    have hn : ¬ BLOCKBYTES < inp.length := by omega

    simp [absorbAux, hn]

theorem absorbAux_step (fuel : Nat) (h : List Nat) (t : Nat) (inp : List Nat)
    (hgt : BLOCKBYTES < inp.length) :
    absorbAux (fuel + 1) h t inp =
      absorbAux fuel (portable.compress h (inp.take BLOCKBYTES) (t + BLOCKBYTES) 0 0)
        (t + BLOCKBYTES) (inp.drop BLOCKBYTES) := by
  simp [absorbAux, hgt]

theorem absorbAux_fuel (f1 : Nat) : ∀ (f2 : Nat) (h : List Nat) (t : Nat) (inp : List Nat),
    inp.length ≤ f1 → inp.length ≤ f2 → absorbAux f1 h t inp = absorbAux f2 h t inp := by
  induction f1 with
  | zero =>
    intro f2 h t inp h1 h2
    have hi : inp = [] := List.length_eq_zero.mp (by omega)
    subst hi
    rw [absorbAux_of_le f2 h t [] (by simp [BLOCKBYTES])]
    rfl
  | succ f1 ih =>
    intro f2 h t inp h1 h2
    have hB : BLOCKBYTES = 128 := rfl
    by_cases hgt : BLOCKBYTES < inp.length
    · cases f2 with
      | zero => omega
      | succ f2 =>
        rw [absorbAux_step f1 _ _ _ hgt, absorbAux_step f2 _ _ _ hgt]
        exact ih f2 _ _ _ (by simp [List.length_drop]; omega)
          (by simp [List.length_drop]; omega)
    · rw [absorbAux_of_le _ _ _ _ (by omega), absorbAux_of_le _ _ _ _ (by omega)]

theorem absorb_of_le (h : List Nat) (t : Nat) (inp : List Nat)
    (hle : inp.length ≤ BLOCKBYTES) : absorb h t inp = (h, t, inp) :=
  absorbAux_of_le _ _ _ _ hle

theorem absorb_step (h : List Nat) (t : Nat) (inp : List Nat)
    (hgt : BLOCKBYTES < inp.length) :
    absorb h t inp =
      absorb (portable.compress h (inp.take BLOCKBYTES) (t + BLOCKBYTES) 0 0)
        (t + BLOCKBYTES) (inp.drop BLOCKBYTES) := by
  unfold absorb
  have hB : BLOCKBYTES = 128 := rfl
  obtain ⟨k, hk⟩ : ∃ k, inp.length = k + 1 := ⟨inp.length - 1, by omega⟩
  rw [hk, absorbAux_step _ _ _ _ hgt]
  exact absorbAux_fuel _ _ _ _ _ (by simp [List.length_drop]; omega) le_rfl

theorem absorb_append (u : List Nat) (h : List Nat) (t : Nat) (b : List Nat) :
    absorb h t (u ++ b) =
      absorb (absorb h t u).1 (absorb h t u).2.1 ((absorb h t u).2.2 ++ b) := by
  have hB : BLOCKBYTES = 128 := rfl
  by_cases hgt : BLOCKBYTES < u.length
  · have h1 : BLOCKBYTES < (u ++ b).length := by simp only [List.length_append]; omega
    rw [absorb_step _ _ _ h1, absorb_step _ _ _ hgt,
      List.take_append_of_le_length (by omega), List.drop_append_of_le_length (by omega)]
    exact absorb_append (u.drop BLOCKBYTES) _ _ b
  · rw [absorb_of_le h t u (by omega)]
termination_by u.length
decreasing_by
  have _hB : BLOCKBYTES = 128 := rfl
  simp only [List.length_drop]
  omega

theorem absorb_buf_le (h : List Nat) (t : Nat) (inp : List Nat) :
    (absorb h t inp).2.2.length ≤ BLOCKBYTES := by
  have hB : BLOCKBYTES = 128 := rfl
  by_cases hgt : BLOCKBYTES < inp.length
  · rw [absorb_step _ _ _ hgt]
    exact absorb_buf_le _ _ _
  · rw [absorb_of_le _ _ _ (by omega)]
    show inp.length ≤ BLOCKBYTES
    omega
termination_by inp.length
decreasing_by
  have _hB : BLOCKBYTES = 128 := rfl
  simp only [List.length_drop]
  omega

theorem absorb_buf_ne (h : List Nat) (t : Nat) (inp : List Nat) (hne : inp ≠ []) :
    (absorb h t inp).2.2 ≠ [] := by
  have hB : BLOCKBYTES = 128 := rfl
  by_cases hgt : BLOCKBYTES < inp.length
  · rw [absorb_step _ _ _ hgt]
    refine absorb_buf_ne _ _ _ ?_
    intro hc
    have hlen := congrArg List.length hc
    simp only [List.length_drop, List.length_nil] at hlen
    omega
  · rw [absorb_of_le _ _ _ (by omega)]
    simpa using hne
termination_by inp.length
decreasing_by
  have _hB : BLOCKBYTES = 128 := rfl
  simp only [List.length_drop]
  omega

theorem update_eq_absorb (s : State) (x : List Nat) (hb : s.buf.length ≤ BLOCKBYTES) :
    s.update x = { s with
      h := (absorb s.h s.t (s.buf ++ x)).1
      t := (absorb s.h s.t (s.buf ++ x)).2.1
      buf := (absorb s.h s.t (s.buf ++ x)).2.2 } := by
  simp only [State.update]
  have hB : BLOCKBYTES = 128 := rfl
  by_cases hrest : (x.drop (min (BLOCKBYTES - s.buf.length) x.length)).isEmpty = true
  · rw [if_pos hrest]
    have hxn : x.length ≤ min (BLOCKBYTES - s.buf.length) x.length := by
      have h0 := List.isEmpty_iff.mp hrest
      have h1 := congrArg List.length h0
      simp only [List.length_drop, List.length_nil] at h1
      omega
    have htake : x.take (min (BLOCKBYTES - s.buf.length) x.length) = x :=
      List.take_of_length_le (by omega)
    have hlen : (s.buf ++ x).length ≤ BLOCKBYTES := by
      simp only [List.length_append]
      omega
    rw [absorb_of_le _ _ _ hlen, htake]
  · rw [if_neg hrest]
    have hxgt : min (BLOCKBYTES - s.buf.length) x.length < x.length := by
      by_contra hle
      push_neg at hle
      have : x.drop (min (BLOCKBYTES - s.buf.length) x.length) = [] :=
        List.drop_eq_nil_of_le (by omega)
      simp [this] at hrest
    have hbuf1 : (s.buf ++ x.take (min (BLOCKBYTES - s.buf.length) x.length)).length =
        BLOCKBYTES := by
      simp only [List.length_append, List.length_take]
      omega
    have hsplit : s.buf ++ x =
        (s.buf ++ x.take (min (BLOCKBYTES - s.buf.length) x.length)) ++
          x.drop (min (BLOCKBYTES - s.buf.length) x.length) := by
      rw [List.append_assoc, List.take_append_drop]
    have hgt : BLOCKBYTES < (s.buf ++ x).length := by
      simp only [List.length_append]
      omega
    have ht : (s.buf ++ x).take BLOCKBYTES =
        s.buf ++ x.take (min (BLOCKBYTES - s.buf.length) x.length) := by
      rw [hsplit, List.take_append_of_le_length (by omega)]
      exact List.take_of_length_le (by omega)
    have hd : (s.buf ++ x).drop BLOCKBYTES =
        x.drop (min (BLOCKBYTES - s.buf.length) x.length) := by
      rw [hsplit, List.drop_append_of_le_length (by omega)]
      rw [show (s.buf ++ x.take (min (BLOCKBYTES - s.buf.length) x.length)).drop BLOCKBYTES
          = [] from List.drop_eq_nil_of_le (by omega)]
      rfl
    rw [absorb_step _ _ _ hgt, ht, hd]

theorem update_append (s : State) (a b : List Nat) (hb : s.buf.length ≤ BLOCKBYTES) :
    (s.update a).update b = s.update (a ++ b) := by
  rw [update_eq_absorb s a hb]
  rw [update_eq_absorb _ b (by simpa using absorb_buf_le s.h s.t (s.buf ++ a))]
  rw [update_eq_absorb s (a ++ b) hb]
  have key := absorb_append (s.buf ++ a) s.h s.t b
  rw [List.append_assoc] at key
  rw [key]

/-- C2: streaming equals one-shot hashing.  For every input split into `a ∥ b`,
`blake2b (a ++ b)` equals `State::new().update(a).update(b).finalize()`; in
particular any chunking of the input yields the same digest. -/
theorem claim_C2_streaming_equals_oneshot : ∀ a b : List Nat,
    blake2b (a ++ b) = ((State.new.update a).update b).finalize := by
  intro a b
  rw [update_append State.new a b (by decide)]
  rfl

/-- C4: state invariant preserved by every `update` call: afterwards the
buffer is non-empty unless no byte was ever supplied; in particular `update`
never compresses the block that just filled the buffer — when the input only
fills the buffer (total pending ≤ 128 bytes), only the buffer grows. -/
theorem claim_C4_update_buffer_nonempty : ∀ (s : State) (x : List Nat),
    s.buf.length ≤ BLOCKBYTES →
    (s.buf ++ x ≠ [] → (s.update x).buf ≠ []) ∧
    (s.buf.length + x.length ≤ BLOCKBYTES → s.update x = { s with buf := s.buf ++ x }) := by
  intro s x hb
  constructor
  · intro hne
    rw [update_eq_absorb s x hb]
    simpa using absorb_buf_ne s.h s.t (s.buf ++ x) hne
  · intro hle
    rw [update_eq_absorb s x hb, absorb_of_le _ _ _ (by simpa using hle)]

theorem claim_C4_update_buffer_nonempty_witness :
    (State.new.buf ++ [7] ≠ [] → (State.new.update [7]).buf ≠ []) ∧
    (State.new.buf.length + [7].length ≤ BLOCKBYTES →
      State.new.update [7] = { State.new with buf := State.new.buf ++ [7] }) :=
  claim_C4_update_buffer_nonempty State.new [7] (by decide)

/-- C5: `finalize` is non-destructive and idempotent: it leaves the caller's
state unchanged, repeated `finalize` yields the same digest, and a subsequent
`update(y).finalize()` equals hashing the prior input concatenated with `y`
from scratch. -/
theorem claim_C5_finalize_nondestructive : ∀ (s : State) (x y : List Nat),
    s.finalizeSt.2 = s ∧ s.finalize = s.finalize ∧
    ((State.new.update x).update y).finalize = blake2b (x ++ y) := by
  intro s x y
  refine ⟨rfl, rfl, ?_⟩
  rw [update_append State.new x y (by decide)]
  rfl

set_option maxRecDepth 1000000 in
/-- C3: `blake2b` with default parameters maps the four literal inputs to the
four literal 64-byte digests: the empty string, `"abc"` (bytes 61 62 63 hex),
128 zero bytes, and 1000 zero bytes. -/
theorem claim_C3_test_vectors :
    to_hex (blake2b []) =
      "786a02f742015903c6c6fd852552d272912f4740e15847618a86e217f71f5419d25e1031afee585313896444934eb04b903a685b1448b755d56f701afe9be2ce" ∧
    to_hex (blake2b [0x61, 0x62, 0x63]) =
      "ba80a53f981c4d0d6a2797b69f12f6e94c212f14685ac4b74b12bb6fdbffa2d17d87c5392aab792dc252d5de4533cc9518d38aa8dbf1925ab92386edd4009923" ∧
    to_hex (blake2b (List.replicate BLOCKBYTES 0)) =
      "865939e120e6805438478841afb739ae4250cf372653078a065cdcfffca4caf798e6d462b65d658fc165782640eded70963449ae1500fb0f24981d7727e22c41" ∧
    to_hex (blake2b (List.replicate 1000 0)) =
      "1ee4e51ecab5210a518f26150e882627ec839967f19d763e1508b12cfefed14858f6a1c9d1f969bc224dc9440f5a6955277e755b9c513f9ba4421c5e50c8d787" :=
  ⟨by decide, by decide, by decide, by decide⟩

/-! ### The parallel driver lane by lane -/

theorem compress_length (h m : List Nat) (c lb lnf : Nat) :
    (portable.compress h m c lb lnf).length = 8 := by
  simp [portable.compress, gcompress]

theorem absorb_h_length (h : List Nat) (t : Nat) (inp : List Nat) (hh : h.length = 8) :
    (absorb h t inp).1.length = 8 := by
  have _hB : BLOCKBYTES = 128 := rfl
  by_cases hgt : BLOCKBYTES < inp.length
  · rw [absorb_step _ _ _ hgt]
    exact absorb_h_length _ _ _ (compress_length _ _ _ _ _)
  · rw [absorb_of_le _ _ _ (by omega)]
    exact hh
termination_by inp.length
decreasing_by
  have _hB : BLOCKBYTES = 128 := rfl
  simp only [List.length_drop]
  omega

theorem update_h_length (s : State) (x : List Nat) (hs : s.h.length = 8)
    (hb : s.buf.length ≤ BLOCKBYTES) : (s.update x).h.length = 8 := by
  rw [update_eq_absorb s x hb]
  exact absorb_h_length _ _ _ hs

theorem update_buf_length (s : State) (x : List Nat) (hb : s.buf.length ≤ BLOCKBYTES) :
    (s.update x).buf.length ≤ BLOCKBYTES := by
  rw [update_eq_absorb s x hb]
  exact absorb_buf_le _ _ _

theorem parallel_lane (imp : Implementation) (h0 h1 h2 h3 b0 b1 b2 b3 : List Nat)
    (c0 c1 c2 c3 f0 f1 f2 f3 g0 g1 g2 g3 : Nat)
    (hl0 : h0.length = 8) (hl1 : h1.length = 8) (hl2 : h2.length = 8)
    (hl3 : h3.length = 8) :
    imp.untranspose4 (imp.compress4 (imp.transpose4 h0 h1 h2 h3) b0 b1 b2 b3
        [c0 % U64, c1 % U64, c2 % U64, c3 % U64]
        [(c0 >>> 64) % U64, (c1 >>> 64) % U64, (c2 >>> 64) % U64, (c3 >>> 64) % U64]
        [f0, f1, f2, f3] [g0, g1, g2, g3]) =
      (portable.compress h0 b0 c0 f0 g0, portable.compress h1 b1 c1 f1 g1,
       portable.compress h2 b2 c2 f2 g2, portable.compress h3 b3 c3 f3 g3) := by
  rw [dispatch_untranspose4, dispatch_compress4, dispatch_transpose4]
  have t0 : listLane 0 (portable.transpose4 h0 h1 h2 h3) = h0 := by
    simpa using transpose4_lane 0 (by omega) h0 h1 h2 h3 (by simpa using hl0)
  have t1 : listLane 1 (portable.transpose4 h0 h1 h2 h3) = h1 := by
    simpa using transpose4_lane 1 (by omega) h0 h1 h2 h3 (by simpa using hl1)
  have t2 : listLane 2 (portable.transpose4 h0 h1 h2 h3) = h2 := by
    simpa using transpose4_lane 2 (by omega) h0 h1 h2 h3 (by simpa using hl2)
  have t3 : listLane 3 (portable.transpose4 h0 h1 h2 h3) = h3 := by
    simpa using transpose4_lane 3 (by omega) h0 h1 h2 h3 (by simpa using hl3)
  unfold portable.untranspose4
  simp only [Prod.mk.injEq]
  refine ⟨?_, ?_, ?_, ?_⟩
  · rw [compress4_transposed_lane 0 (by omega), t0]
    simp only [List.getD_cons_zero, List.getD_cons_succ]
    rfl
  · rw [compress4_transposed_lane 1 (by omega), t1]
    simp only [List.getD_cons_zero, List.getD_cons_succ]
    rfl
  · rw [compress4_transposed_lane 2 (by omega), t2]
    simp only [List.getD_cons_zero, List.getD_cons_succ]
    rfl
  · rw [compress4_transposed_lane 3 (by omega), t3]
    simp only [List.getD_cons_zero, List.getD_cons_succ]
    rfl

theorem update_after_block (s : State) (rem : List Nat) (hb : s.buf.length ≤ BLOCKBYTES)
    (hpend : BLOCKBYTES < s.buf.length + rem.length) :
    State.update
        { s with
          h := portable.compress s.h ((s.buf ++ rem).take BLOCKBYTES) (s.t + BLOCKBYTES) 0 0
          t := s.t + BLOCKBYTES
          buf := [] }
        ((s.buf ++ rem).drop BLOCKBYTES) = s.update rem := by
  have _hB : BLOCKBYTES = 128 := rfl
  rw [update_eq_absorb
      { s with
        h := portable.compress s.h ((s.buf ++ rem).take BLOCKBYTES) (s.t + BLOCKBYTES) 0 0
        t := s.t + BLOCKBYTES
        buf := [] }
      ((s.buf ++ rem).drop BLOCKBYTES) (by simp),
    update_eq_absorb s rem hb,
    absorb_step s.h s.t (s.buf ++ rem) (by simp only [List.length_append]; omega)]
  rfl

theorem update4Aux_eq (imp : Implementation) (fuel : Nat) :
    ∀ (l0 l1 l2 l3 : Lane),
      l0.1.h.length = 8 → l1.1.h.length = 8 → l2.1.h.length = 8 → l3.1.h.length = 8 →
      l0.1.buf.length ≤ BLOCKBYTES → l1.1.buf.length ≤ BLOCKBYTES →
      l2.1.buf.length ≤ BLOCKBYTES → l3.1.buf.length ≤ BLOCKBYTES →
      update4Aux imp fuel l0 l1 l2 l3 =
        (l0.1.update l0.2, l1.1.update l1.2, l2.1.update l2.2, l3.1.update l3.2) := by
  induction fuel with
  | zero => intro l0 l1 l2 l3 _ _ _ _ _ _ _ _; rfl
  | succ fuel ih =>
    intro l0 l1 l2 l3 hh0 hh1 hh2 hh3 hb0 hb1 hb2 hb3
    by_cases hc : BLOCKBYTES < lanePending l0 ∧ BLOCKBYTES < lanePending l1 ∧
        BLOCKBYTES < lanePending l2 ∧ BLOCKBYTES < lanePending l3
    · have hpar := parallel_lane imp l0.1.h l1.1.h l2.1.h l3.1.h
        (laneBlock l0) (laneBlock l1) (laneBlock l2) (laneBlock l3)
        (laneCount l0) (laneCount l1) (laneCount l2) (laneCount l3)
        0 0 0 0 0 0 0 0 hh0 hh1 hh2 hh3
      simp only [update4Aux, if_pos hc, hpar]
      refine Eq.trans (ih _ _ _ _ ?_ ?_ ?_ ?_ ?_ ?_ ?_ ?_) ?_
      · exact compress_length _ _ _ _ _
      · exact compress_length _ _ _ _ _
      · exact compress_length _ _ _ _ _
      · exact compress_length _ _ _ _ _
      · simp [laneAdvance]
      · simp [laneAdvance]
      · simp [laneAdvance]
      · simp [laneAdvance]
      · simp only [Prod.mk.injEq]
        exact ⟨update_after_block l0.1 l0.2 hb0 hc.1,
          update_after_block l1.1 l1.2 hb1 hc.2.1,
          update_after_block l2.1 l2.2 hb2 hc.2.2.1,
          update_after_block l3.1 l3.2 hb3 hc.2.2.2⟩
    · simp only [update4Aux, if_neg hc]

theorem finalize4_eq (imp : Implementation) (s0 s1 s2 s3 : State)
    (h0 : s0.h.length = 8) (h1 : s1.h.length = 8) (h2 : s2.h.length = 8)
    (h3 : s3.h.length = 8) :
    finalize4 imp s0 s1 s2 s3 =
      (s0.finalize, s1.finalize, s2.finalize, s3.finalize) := by
  by_cases hc : s0.buf.length = s1.buf.length ∧ s1.buf.length = s2.buf.length ∧
      s2.buf.length = s3.buf.length
  · have hpar := parallel_lane imp s0.h s1.h s2.h s3.h
      (padTo BLOCKBYTES s0.buf) (padTo BLOCKBYTES s1.buf) (padTo BLOCKBYTES s2.buf)
      (padTo BLOCKBYTES s3.buf)
      (s0.t + s0.buf.length) (s1.t + s1.buf.length) (s2.t + s2.buf.length)
      (s3.t + s3.buf.length)
      ALLONES ALLONES ALLONES ALLONES
      (if s0.lastNode then ALLONES else 0) (if s1.lastNode then ALLONES else 0)
      (if s2.lastNode then ALLONES else 0) (if s3.lastNode then ALLONES else 0)
      h0 h1 h2 h3
    simp only [finalize4, if_pos hc, List.map_cons, List.map_nil, hpar]
    rfl
  · simp only [finalize4, if_neg hc]

/-- C6: for every implementation and every four states (arbitrary differing
configurations, prefixes and last-node flags) and four input slices,
`update4` followed by `finalize4` yields exactly the four digests obtained by
four independent `State::update` / `State::finalize` runs on the same states
and inputs. -/
theorem claim_C6_update4_finalize4 :
    ∀ (imp : Implementation) (s0 s1 s2 s3 : State) (i0 i1 i2 i3 : List Nat),
      s0.h.length = 8 → s1.h.length = 8 → s2.h.length = 8 → s3.h.length = 8 →
      s0.buf.length ≤ BLOCKBYTES → s1.buf.length ≤ BLOCKBYTES →
      s2.buf.length ≤ BLOCKBYTES → s3.buf.length ≤ BLOCKBYTES →
      update4 imp s0 s1 s2 s3 i0 i1 i2 i3 =
        (s0.update i0, s1.update i1, s2.update i2, s3.update i3) ∧
      finalize4 imp (s0.update i0) (s1.update i1) (s2.update i2) (s3.update i3) =
        ((s0.update i0).finalize, (s1.update i1).finalize, (s2.update i2).finalize,
         (s3.update i3).finalize) := by
  intro imp s0 s1 s2 s3 i0 i1 i2 i3 hh0 hh1 hh2 hh3 hb0 hb1 hb2 hb3
  constructor
  · exact update4Aux_eq imp _ (s0, i0) (s1, i1) (s2, i2) (s3, i3)
      hh0 hh1 hh2 hh3 hb0 hb1 hb2 hb3
  · exact finalize4_eq imp _ _ _ _ (update_h_length s0 i0 hh0 hb0)
      (update_h_length s1 i1 hh1 hb1) (update_h_length s2 i2 hh2 hb2)
      (update_h_length s3 i3 hh3 hb3)

theorem claim_C6_update4_finalize4_witness :
    (update4 Implementation.portable State.new State.new State.new State.new
        (List.replicate 200 1) (List.replicate 300 2) [3] [] =
      (State.new.update (List.replicate 200 1), State.new.update (List.replicate 300 2),
       State.new.update [3], State.new.update []) ∧
    finalize4 Implementation.portable (State.new.update (List.replicate 200 1))
        (State.new.update (List.replicate 300 2)) (State.new.update [3])
        (State.new.update []) =
      ((State.new.update (List.replicate 200 1)).finalize,
       (State.new.update (List.replicate 300 2)).finalize,
       (State.new.update [3]).finalize, (State.new.update []).finalize)) :=
  claim_C6_update4_finalize4 Implementation.portable State.new State.new State.new State.new
    (List.replicate 200 1) (List.replicate 300 2) [3] []
    (by decide) (by decide) (by decide) (by decide)
    (by decide) (by decide) (by decide) (by decide)

end Blake2
